import Mathlib

/-!
Verification of the sqlc2proto type-mapping and code-synthesis engine.

This file is a shallow embedding, in Lean 4, of the parts of the
boomskats/sqlc2proto repository that the checked claims are about:

* `internal/parser/parser.go` — the struct walker (`processSQLCFile`),
  field/type resolution, the snake/pascal casing helpers, the conversion-code
  generators, and the service synthesizer (`GenerateServiceDefinitions`,
  `inferEntityFromMethodName`, `mapGoTypeToProtoType`);
* `internal/includes/dependencies.go` — `ResolveDependencies` and
  `addModelAndDependencies`;
* `internal/includes/parser.go` — `WriteIncludesFile` / `LoadIncludesFile`;
* `internal/generator` (`GenerateServiceFile`) — the pure service-list
  transformation (naming, streaming and pagination passes).

Strings coming from Go are modelled as Lean `String`s; the source operates on
ASCII identifiers and tags, where Go's byte-wise loops coincide with the
character-wise loops used here.  Go `map[string]T` values are modelled as
`String → Option T` lookup functions (or explicit case matches for the fixed
built-in tables); Go sets (`map[string]bool`) are modelled as `Finset String`,
which also captures the unspecified iteration order of a Go map.
-/

namespace Sqlc2Proto

/-! ## Character helpers (ASCII, mirroring the byte tests in the Go sources) -/

def isUpperA (c : Char) : Bool := 'A' ≤ c && c ≤ 'Z'

def isLowerA (c : Char) : Bool := 'a' ≤ c && c ≤ 'z'

def isDigitA (c : Char) : Bool := '0' ≤ c && c ≤ '9'

/-- ASCII lower-casing of a single character (`v += 'a'; v -= 'A'`). -/
def toLowerA (c : Char) : Char :=
  if isUpperA c then Char.ofNat (c.toNat + 32) else c

/-- ASCII upper-casing of a single character. -/
def toUpperA (c : Char) : Char :=
  if isLowerA c then Char.ofNat (c.toNat - 32) else c

/-! ## `iancoleman/strcase` — `ToSnake` and `ToCamel`

The repository converts names with the third-party `strcase` package.  The
two functions used (`strcase.ToSnake`, `strcase.ToCamel`) are embedded here
following that package's published algorithm (`ToScreamingDelimited(s, '_',
"", false)` and `toCamelInitCase(s, true)`); with the empty `ignore` set the
`prevIgnore` branch of the Go loop is always false and is omitted. -/

/-- The byte loop of `strcase.ToScreamingDelimited(s, '_', "", false)`.
`prev` is the previous original character (`s[i-1]` in Go). -/
def toSnakeAux : Option Char → List Char → List Char
  | _, [] => []
  | prev, v :: rest =>
    let vIsCap := isUpperA v
    let vIsLow := isLowerA v
    let v' := if vIsCap then toLowerA v else v
    let vIsNum := isDigitA v'
    let tail := toSnakeAux (some v) rest
    match rest with
    | next :: _ =>
      let nextIsCap := isUpperA next
      let nextIsLow := isLowerA next
      let nextIsNum := isDigitA next
      if (vIsCap && (nextIsLow || nextIsNum)) ||
         (vIsLow && (nextIsCap || nextIsNum)) ||
         (vIsNum && (nextIsCap || nextIsLow)) then
        let head :=
          if vIsCap && nextIsLow &&
             (match prev with | some p => isUpperA p | none => false) then
            ['_']
          else []
        head ++ [v'] ++ (if vIsLow || vIsNum || nextIsNum then ['_'] else []) ++ tail
      else
        (if v' == ' ' || v' == '_' || v' == '-' || v' == '.' then ['_'] else [v']) ++ tail
    | [] =>
      (if v' == ' ' || v' == '_' || v' == '-' || v' == '.' then ['_'] else [v']) ++ tail

/-- Go `strings.TrimSpace` (ASCII whitespace model, matching the identifier
and tag inputs this repository feeds through it). -/
def trimSpaceGo (s : String) : String :=
  ⟨((s.data.dropWhile fun c => c == ' ' || c == '\t' || c == '\n' || c == '\r').reverse.dropWhile
      fun c => c == ' ' || c == '\t' || c == '\n' || c == '\r').reverse⟩

/-- Go `strcase.ToSnake`: `strings.TrimSpace`, then the delimiter loop. -/
def toSnake (s : String) : String :=
  ⟨toSnakeAux none (trimSpaceGo s).data⟩

/-- The loop of `strcase.toCamelInitCase(s, true)` (i.e. `strcase.ToCamel`):
upper-case letters and digits pass through, lower-case letters are
capitalised when `capNext` is set, and `_`, space, `-`, `.` are dropped
while setting `capNext`. -/
def toCamelAux : Bool → List Char → List Char
  | _, [] => []
  | capNext, v :: rest =>
    if isUpperA v then v :: toCamelAux false rest
    else if isDigitA v then v :: toCamelAux false rest
    else if isLowerA v then
      (if capNext then toUpperA v else v) :: toCamelAux false rest
    else
      toCamelAux (v == '_' || v == ' ' || v == '-' || v == '.') rest

/-- Go `strcase.ToCamel`: `strings.TrimSpace`, then the capitalisation loop. -/
def toCamel (s : String) : String :=
  ⟨toCamelAux true (trimSpaceGo s).data⟩

/-! ## `camelToSnake` (internal/parser/parser.go) -/

/-- Go `camelToSnake` from `internal/parser/parser.go`: special cases for bare
`UUID`/`ULID`, then `strings.Replace(s, "ID", "Id", -1)`, then
`strcase.ToSnake`. -/
def camelToSnake (s : String) : String :=
  if s == "UUID" then "uuid"
  else if s == "ULID" then "ulid"
  else toSnake (s.replace "ID" "Id")

/-! ## Small string helpers used by the parser embedding

Go's `strings.HasPrefix` / `HasSuffix` / `TrimPrefix`-style operations are
modelled directly on the character list of a `String`. -/

/-- Go `strings.HasPrefix(s, pre)`. -/
def hasPrefixGo (s pre : String) : Bool :=
  pre.data.isPrefixOf s.data

/-- Go `strings.HasSuffix(s, suf)`. -/
def hasSuffixGo (s suf : String) : Bool :=
  suf.data.isSuffixOf s.data

/-- Drop the first `n` characters (Go slicing `s[n:]`, as used by
`strings.TrimPrefix` after a successful prefix check). -/
def strDropGo (s : String) (n : Nat) : String :=
  ⟨s.data.drop n⟩

/-- Drop the last `n` characters (Go slicing `s[:len(s)-n]`, as used by
`strings.TrimSuffix` after a successful suffix check). -/
def strDropRightGo (s : String) (n : Nat) : String :=
  ⟨s.data.take (s.data.length - n)⟩

/-- Go `strings.Contains(s, pat)` for a non-empty pattern: `splitOn` yields more
than one piece exactly when the pattern occurs in `s`. -/
def strContains (s pat : String) : Bool :=
  (s.splitOn pat).length != 1

/-- Go `strings.Trim(s, "\"")`: drop every leading and trailing double quote. -/
def trimQuotes (s : String) : String :=
  ⟨((s.data.dropWhile (· == '"')).reverse.dropWhile (· == '"')).reverse⟩

/-- Go `ast.IsExported`: the first character is upper-case (ASCII model of
`unicode.IsUpper` on identifier names). -/
def isGoExported (name : String) : Bool :=
  match name.data with
  | [] => false
  | c :: _ => isUpperA c

/-! ## Go type expressions and `exprToTypeString` (internal/parser/parser.go) -/

/-- The subset of `go/ast` type expressions distinguished by
`exprToTypeString`: identifiers, qualified names, pointers, slices, and a
single `other` constructor for every expression shape that falls into the
Go function's `default` arm (anonymous structs, funcs, maps, …). -/
inductive GoExpr where
  | ident (name : String)
  | selector (x : GoExpr) (sel : String)
  | star (x : GoExpr)
  | array (elt : GoExpr)
  | other
deriving Repr, DecidableEq

/-- Go `exprToTypeString`: pointers are unwrapped to the base type, arrays are
prefixed with `[]`, anything unrecognised defaults to `"string"`. -/
def exprToTypeString : GoExpr → String
  | .ident n => n
  | .selector x sel => exprToTypeString x ++ "." ++ sel
  | .star x => exprToTypeString x
  | .array elt => "[]" ++ exprToTypeString elt
  | .other => "string"

/-! ## The built-in mapping tables (internal/parser/parser.go) -/

/-- Go `TypeMapping`, the built-in Go-type → Protobuf-type map. -/
def TypeMapping : String → Option String
  | "string" => some "string"
  | "int" => some "int32"
  | "int16" => some "int32"
  | "int32" => some "int32"
  | "int64" => some "int64"
  | "float32" => some "float"
  | "float64" => some "double"
  | "bool" => some "bool"
  | "[]byte" => some "bytes"
  | "time.Time" => some "google.protobuf.Timestamp"
  | "pgtype.Date" => some "google.protobuf.Timestamp"
  | "pgtype.Timestamptz" => some "google.protobuf.Timestamp"
  | "pgtype.Text" => some "string"
  | "pgtype.Numeric" => some "string"
  | "uuid.UUID" => some "string"
  | "json.RawMessage" => some "string"
  | "pgtype.Interval" => some "int64"
  | _ => none

/-- Go `NullableTypeMapping`, the built-in nullable-type → Protobuf-type map. -/
def NullableTypeMapping : String → Option String
  | "sql.NullString" => some "string"
  | "sql.NullInt16" => some "int32"
  | "sql.NullInt32" => some "int32"
  | "sql.NullInt64" => some "int64"
  | "sql.NullFloat64" => some "double"
  | "sql.NullBool" => some "bool"
  | "sql.NullTime" => some "google.protobuf.Timestamp"
  | "uuid.NullUUID" => some "string"
  | _ => none

/-! ## Descriptor records (internal/parser/parser.go, types.go) -/

/-- Go `ProtoField`; defaults correspond to Go zero values, matching the
partial struct literals used in the source. -/
structure ProtoField where
  Name : String := ""
  «Type» : String := ""
  Number : Nat := 0
  IsRepeated : Bool := false
  IsOptional : Bool := false
  Comment : String := ""
  JSONName : String := ""
  OriginalTag : String := ""
  SQLCName : String := ""
  ConversionCode : String := ""
  ReverseConversionCode : String := ""
deriving Repr, DecidableEq

/-- Go `ProtoMessage`. -/
structure ProtoMessage where
  Name : String := ""
  Fields : List ProtoField := []
  Comments : String := ""
  SQLCStruct : String := ""
  ProtoPackage : String := ""
deriving Repr, DecidableEq

/-! ## Tag extraction (internal/parser/parser.go `extractTag`) -/

/-- Loop body of `extractTag`: find the first space-separated chunk with
prefix `key ++ ":"` and return its value with surrounding quotes trimmed. -/
def extractTagGo : List String → String → String
  | [], _ => ""
  | t :: rest, key =>
    if hasPrefixGo t (key ++ ":") then trimQuotes (strDropGo t (key.length + 1))
    else extractTagGo rest key

/-- Go `extractTag(tagStr, key)`. -/
def extractTag (tagStr key : String) : String :=
  extractTagGo (tagStr.splitOn " ") key

/-! ## Conversion-code generators (internal/parser/parser.go) -/

/-- Go `generateNullableConversionCode`. -/
def generateNullableConversionCode (sqlType : String) (field : ProtoField) : String :=
  match sqlType with
  | "sql.NullString" => "nullStringToString(in." ++ field.SQLCName ++ ")"
  | "sql.NullInt16" => "nullInt16ToInt32(in." ++ field.SQLCName ++ ")"
  | "sql.NullInt32" => "nullInt32ToInt32(in." ++ field.SQLCName ++ ")"
  | "sql.NullInt64" => "nullInt64ToInt64(in." ++ field.SQLCName ++ ")"
  | "sql.NullFloat64" => "nullFloat64ToFloat64(in." ++ field.SQLCName ++ ")"
  | "sql.NullBool" => "nullBoolToBool(in." ++ field.SQLCName ++ ")"
  | "sql.NullTime" => "nullTimeToTimestamp(in." ++ field.SQLCName ++ ")"
  | "uuid.NullUUID" => "nullUUIDToString(in." ++ field.SQLCName ++ ")"
  | _ => "in." ++ field.SQLCName

/-- Go `generateReverseNullableConversionCode`; every arm applies
`strcase.ToCamel` to the proto field name. -/
def generateReverseNullableConversionCode (sqlType : String) (field : ProtoField) : String :=
  let pascalName := toCamel field.Name
  match sqlType with
  | "sql.NullString" => "stringToNullString(in." ++ pascalName ++ ")"
  | "sql.NullInt16" => "int32ToNullInt16(in." ++ pascalName ++ ")"
  | "sql.NullInt32" => "int32ToNullInt32(in." ++ pascalName ++ ")"
  | "sql.NullInt64" => "int64ToNullInt64(in." ++ pascalName ++ ")"
  | "sql.NullFloat64" => "float64ToNullFloat64(in." ++ pascalName ++ ")"
  | "sql.NullBool" => "boolToNullBool(in." ++ pascalName ++ ")"
  | "sql.NullTime" => "timestampToNullTime(in." ++ pascalName ++ ")"
  | "uuid.NullUUID" => "stringToNullUUID(in." ++ pascalName ++ ")"
  | _ => "in." ++ pascalName

/-- Go `generateStandardConversionCode`. -/
def generateStandardConversionCode (sqlType : String) (field : ProtoField) : String :=
  match sqlType with
  | "time.Time" => "timestamppb.New(in." ++ field.SQLCName ++ ")"
  | "pgtype.Date" => "dateToTimestamp(in." ++ field.SQLCName ++ ")"
  | "pgtype.Timestamptz" => "timestamptzToTimestamp(in." ++ field.SQLCName ++ ")"
  | "pgtype.Text" => "pgtypeTextToString(in." ++ field.SQLCName ++ ")"
  | "pgtype.Numeric" => "numericToString(in." ++ field.SQLCName ++ ")"
  | "uuid.UUID" => "uuidToString(in." ++ field.SQLCName ++ ")"
  | "json.RawMessage" => "jsonToString(in." ++ field.SQLCName ++ ")"
  | "pgtype.Interval" => "intervalToInt64(in." ++ field.SQLCName ++ ")"
  | "int16" => "int32(in." ++ field.SQLCName ++ ")"
  | _ => "in." ++ field.SQLCName

/-- Go `generateReverseStandardConversionCode`; every arm applies
`strcase.ToCamel` to the proto field name. -/
def generateReverseStandardConversionCode (sqlType : String) (field : ProtoField) : String :=
  let pascalName := toCamel field.Name
  match sqlType with
  | "time.Time" => "in." ++ pascalName ++ ".AsTime()"
  | "pgtype.Date" => "timestampToDate(in." ++ pascalName ++ ")"
  | "pgtype.Timestamptz" => "timestampToTimestamptz(in." ++ pascalName ++ ")"
  | "pgtype.Text" => "stringToPgtypeText(in." ++ pascalName ++ ")"
  | "pgtype.Numeric" => "stringToNumeric(in." ++ pascalName ++ ")"
  | "uuid.UUID" => "stringToUUID(in." ++ pascalName ++ ")"
  | "json.RawMessage" => "stringToJSON(in." ++ pascalName ++ ")"
  | "pgtype.Interval" => "int64ToInterval(in." ++ pascalName ++ ")"
  | "int16" => "int16(in." ++ pascalName ++ ")"
  | _ => "in." ++ pascalName

/-! ## The struct walker (`processSQLCFile`, internal/parser/parser.go)

A struct member as seen by the walker.  The `tag` field carries
`field.Tag.Value` with the surrounding backquotes already removed (the
source performs `strings.Trim(tagValue, ...)` immediately on access, so the
trimmed string is the only form it ever consumes). -/
structure StructField where
  names : List String := []
  type : GoExpr := .other
  tag : Option String := none
  doc : String := ""
deriving Repr, DecidableEq

/-- The JSON-tag-name block of the field loop (it occurs twice in the Go
body, once to choose the wire name and once to fill `JSONName`): the first
comma-piece of the `json:"…"` tag, with `"-"` treated as absent. -/
def jsonNameFromTag (tagValue : String) : String :=
  let jsonTag := extractTag tagValue "json"
  if jsonTag != "" then
    let jsonName := (jsonTag.splitOn ",").headD ""
    if jsonName != "-" then jsonName else ""
  else ""

/-- The field-naming `switch` of the field loop (`"json"`, `"snake_case"`,
`"original"`, default snake_case). -/
def fieldNameForStyle (fieldStyle jsonTagName fieldName : String) : String :=
  if fieldStyle == "json" then
    if jsonTagName != "" then jsonTagName else camelToSnake fieldName
  else if fieldStyle == "snake_case" then camelToSnake fieldName
  else if fieldStyle == "original" then fieldName
  else camelToSnake fieldName

/-- The slice block of the field loop: `[]byte` is restored to the full
`[]byte` for table lookup and stays non-repeated, `[][]byte` keeps a `[]byte`
element and becomes repeated, any other `[]E` becomes repeated with element
`E`.  Returns (lookup type string, `isRepeated`). -/
def sliceAdjust (typeStr0 : String) : String × Bool :=
  if hasPrefixGo typeStr0 "[]" then
    let t := strDropGo typeStr0 2
    if t == "byte" then ("[]byte", false)
    else if t == "[]byte" then ("[]byte", true)
    else (t, true)
  else (typeStr0, false)

/-- The table-lookup block of the field loop: nullable table first (setting
the optional flag and nullable conversions), then the standard table, then
the graceful `"string"` default.  Returns the updated field and
`isNullable`. -/
def resolveFieldType (nullable standard : String → Option String) (typeStr : String)
    (protoField0 : ProtoField) : ProtoField × Bool :=
  match nullable typeStr with
  | some protoType =>
    let f1 := { protoField0 with
                  «Type» := protoType,
                  IsOptional := true }
    ({ f1 with
        ConversionCode := generateNullableConversionCode typeStr f1,
        ReverseConversionCode := generateReverseNullableConversionCode typeStr f1 }, true)
  | none =>
    match standard typeStr with
    | some protoType =>
      let f1 := { protoField0 with «Type» := protoType }
      ({ f1 with
          ConversionCode := generateStandardConversionCode typeStr f1,
          ReverseConversionCode := generateReverseStandardConversionCode typeStr f1 }, false)
    | none =>
      ({ protoField0 with
          «Type» := "string",
          ConversionCode := "in." ++ protoField0.SQLCName,
          ReverseConversionCode := "in." ++ camelToSnake protoField0.SQLCName }, false)

/-- The wire type chosen by the lookup chain of the field loop: nullable
table first, then standard, then the graceful `"string"` default
(statement-level abbreviation of the branch structure of
`resolveFieldType`). -/
def lookupWireType (nullable standard : String → Option String) (t : String) : String :=
  match nullable t with
  | some p => p
  | none =>
    match standard t with
    | some p => p
    | none => "string"

/-- The trailing tag block of the field loop: record the original tag, fill
`JSONName`, and OR in the optional flag when the tag carries `omitempty` and
the type was not already nullable. -/
def applyTagBlock (isNullable : Bool) (tag : Option String) (pf : ProtoField) : ProtoField :=
  match tag with
  | some tagValue =>
    let f1 := { pf with OriginalTag := tagValue }
    let jsonTag := extractTag tagValue "json"
    let f2 :=
      if jsonTag != "" then
        let jsonName := (jsonTag.splitOn ",").headD ""
        if jsonName != "-" then { f1 with JSONName := jsonName } else f1
      else f1
    if !isNullable && strContains tagValue "omitempty" then { f2 with IsOptional := true }
    else f2
  | none => pf

/-- The per-field body of the struct loop in `processSQLCFile`, parameterised
by the (possibly custom-merged) nullable and standard tables the source reads
from its package-level maps.  `i` is the raw index of the member in the
struct's field list; `none` is returned exactly when the Go loop `continue`s
(embedded or unexported field). -/
def processStructField (nullable standard : String → Option String)
    (fieldStyle : String) (i : Nat) (field : StructField) : Option ProtoField :=
  match field.names with
  | [] => none
  | fieldName :: _ =>
    if !isGoExported fieldName then none
    else
      let jsonTagName :=
        match field.tag with
        | some tagValue => jsonNameFromTag tagValue
        | none => ""
      let protoField0 : ProtoField :=
        { Name := fieldNameForStyle fieldStyle jsonTagName fieldName,
          Number := i + 1, Comment := field.doc, SQLCName := fieldName }
      let sliced := sliceAdjust (exprToTypeString field.type)
      let resolved := resolveFieldType nullable standard sliced.1 protoField0
      some (applyTagBlock resolved.2 field.tag { resolved.1 with IsRepeated := sliced.2 })

/-- The per-struct part of `processSQLCFile`: run the field loop over the
members in declaration order (`for i, field := range structType.Fields.List`),
keeping the fields the loop does not skip. -/
def processStructType (nullable standard : String → Option String)
    (fieldStyle : String) (name doc : String) (fields : List StructField) : ProtoMessage :=
  { Name := name, SQLCStruct := name, Comments := doc, ProtoPackage := ""
    Fields := fields.enum.filterMap fun p => processStructField nullable standard fieldStyle p.1 p.2 }

/-! ## Query descriptors (internal/parser/types.go) -/

/-- Go `QueryType` (`"one" | "many" | "exec"`). -/
inductive QueryType where
  | one
  | many
  | exec
deriving Repr, DecidableEq

/-- Go `ParamType`. -/
structure ParamType where
  Name : String := ""
  «Type» : String := ""
deriving Repr, DecidableEq

/-- Go `QueryMethod`. -/
structure QueryMethod where
  Name : String := ""
  «Type» : QueryType := .exec
  ParamTypes : List ParamType := []
  ReturnType : String := ""
  IsArray : Bool := false
  Comment : String := ""
deriving Repr, DecidableEq

/-- Go `ServiceMethod` (internal/parser/types.go); `OriginalQuery` is the
`*QueryMethod` back-pointer. -/
structure ServiceMethod where
  Name : String := ""
  Description : String := ""
  RequestType : String := ""
  ResponseType : String := ""
  RequestFields : List ProtoField := []
  ResponseFields : List ProtoField := []
  OriginalQuery : Option QueryMethod := none
  StreamingServer : Bool := false
  StreamingClient : Bool := false
deriving Repr, DecidableEq

/-- Go `ServiceDefinition`. -/
structure ServiceDefinition where
  Name : String := ""
  Description : String := ""
  Methods : List ServiceMethod := []
deriving Repr, DecidableEq

/-! ## Entity inference (`inferEntityFromMethodName`, internal/parser/parser.go) -/

/-- The ordered CRUD-verb prefix list. -/
def entityPrefixes : List String :=
  ["Get", "List", "Create", "Update", "Delete", "Find", "Search", "Count", "Lookup", "Add"]

/-- The suffix list stripped after the prefix. -/
def entitySuffixes : List String := ["ByID", "ById", "WithDetails", "WithRelations"]

/-- Go `strings.TrimSuffix`. -/
def trimSuffixGo (s suf : String) : String :=
  if hasSuffixGo s suf then strDropRightGo s suf.length else s

/-- The loop body of `inferEntityFromMethodName` for one matching prefix
`p`: `strings.TrimPrefix`, then fold `strings.TrimSuffix` over the suffix
list, then (for `List` only) strip one trailing `s`. -/
def residualForPrefix (methodName p : String) : String :=
  let entity := strDropGo methodName p.length
  let entity := entitySuffixes.foldl trimSuffixGo entity
  if p == "List" && hasSuffixGo entity "s" then strDropRightGo entity 1 else entity

/-- The prefix loop of `inferEntityFromMethodName`: a prefix whose residual
is empty does not return — the loop moves on, and falls through to the
`"Resource"` default. -/
def inferEntityGo : List String → String → String
  | [], _ => "Resource"
  | p :: rest, methodName =>
    if hasPrefixGo methodName p then
      let entity := residualForPrefix methodName p
      if entity != "" then entity else inferEntityGo rest methodName
    else inferEntityGo rest methodName

/-- Go `inferEntityFromMethodName`. -/
def inferEntityFromMethodName (methodName : String) : String :=
  inferEntityGo entityPrefixes methodName

/-! ## `mapGoTypeToProtoType` (internal/parser/parser.go) -/

/-- The local `mapping` table of `mapGoTypeToProtoType`. -/
def mapGoTypeToProtoTypeTable : String → Option String
  | "int" => some "int32"
  | "int32" => some "int32"
  | "int64" => some "int64"
  | "uint" => some "uint32"
  | "uint32" => some "uint32"
  | "uint64" => some "uint64"
  | "float32" => some "float"
  | "float64" => some "double"
  | "bool" => some "bool"
  | "string" => some "string"
  | "[]byte" => some "bytes"
  | "time.Time" => some "google.protobuf.Timestamp"
  | _ => none

/-- Go `mapGoTypeToProtoType`: pointer and slice prefixes are stripped before
lookup; an unmapped type passes through unchanged. -/
def mapGoTypeToProtoType (goType : String) : String :=
  if hasPrefixGo goType "*" then
    let baseType := strDropGo goType 1
    match mapGoTypeToProtoTypeTable baseType with
    | some protoType => protoType
    | none => baseType
  else if hasPrefixGo goType "[]" then
    let baseType := strDropGo goType 2
    match mapGoTypeToProtoTypeTable baseType with
    | some protoType => protoType
    | none => baseType
  else
    match mapGoTypeToProtoTypeTable goType with
    | some protoType => protoType
    | none => goType

/-! ## Service synthesis (`GenerateServiceDefinitions`, internal/parser/parser.go) -/

/-- The request-field loop over `method.ParamTypes`: a parameter whose type
is a known message becomes a message-typed field named after the type;
anything else becomes a scalar field named after the parameter. -/
def paramRequestFields (messages : List ProtoMessage) (params : List ParamType) :
    List ProtoField :=
  params.enum.map fun p =>
    let i := p.1
    let param := p.2
    if messages.any fun m => m.Name == param.«Type» then
      { Name := toSnake param.«Type», «Type» := param.«Type», Number := i + 1,
        Comment := param.«Type» ++ " to process" }
    else
      { Name := toSnake param.Name, «Type» := mapGoTypeToProtoType param.«Type», Number := i + 1,
        Comment := param.Name ++ " parameter" }

/-- The pagination block of `GenerateServiceDefinitions`: for `List`-prefixed
methods, `hasLimit`/`hasOffset` are computed over the already-synthesised
request fields against the hardcoded names `"limit"` and `"offset"`, and the
missing fields are appended with the next ordinals. -/
def appendPaginationRequestFields (methodName : String) (fields : List ProtoField) :
    List ProtoField :=
  if hasPrefixGo methodName "List" then
    let hasLimit := fields.any fun f => f.Name == "limit"
    let hasOffset := fields.any fun f => f.Name == "offset"
    let fields1 :=
      if hasLimit then fields
      else fields ++ [{ Name := "limit", «Type» := "int32", Number := fields.length + 1,
                        Comment := "Maximum number of results to return" }]
    if hasOffset then fields1
    else fields1 ++ [{ Name := "page_token", «Type» := "string", Number := fields1.length + 1,
                       Comment := "Page token for pagination" }]
  else fields

/-- The per-method body of `GenerateServiceDefinitions`: request-field and
response-field synthesis for one query method of entity `entity`. -/
def buildServiceMethod (messages : List ProtoMessage) (entity : String)
    (method : QueryMethod) : ServiceMethod :=
  let requestFields :=
    if method.ParamTypes.length > 0 then
      appendPaginationRequestFields method.Name (paramRequestFields messages method.ParamTypes)
    else if hasPrefixGo method.Name "Get" || hasPrefixGo method.Name "Delete" then
      [{ Name := toSnake entity ++ "_id", «Type» := "int32", Number := 1,
         Comment := "ID of the " ++ entity }]
    else []
  let responseFields :=
    if method.ReturnType != "" then
      if !method.IsArray then
        [{ Name := toSnake method.ReturnType, «Type» := method.ReturnType, Number := 1,
           Comment := "The " ++ method.ReturnType ++ " result" }]
      else
        [{ Name := toSnake method.ReturnType ++ "s", «Type» := method.ReturnType, Number := 1,
           IsRepeated := true, Comment := "List of " ++ method.ReturnType ++ " results" }] ++
        (if hasPrefixGo method.Name "List" then
          [{ Name := "next_page_token", «Type» := "string", Number := 2,
             Comment := "Token for retrieving the next page of results" },
           { Name := "total_size", «Type» := "int32", Number := 3,
             Comment := "Total number of results available" }]
        else [])
    else if method.«Type» == QueryType.exec then
      [{ Name := "success", «Type» := "bool", Number := 1,
         Comment := "Whether the operation was successful" },
       { Name := "affected_rows", «Type» := "int32", Number := 2,
         Comment := "Number of rows affected by the operation" }]
    else []
  { Name := method.Name, Description := method.Comment,
    RequestType := method.Name ++ "Request", ResponseType := method.Name ++ "Response",
    OriginalQuery := some method,
    RequestFields := requestFields, ResponseFields := responseFields }

/-- First-occurrence de-duplication of a key list (`seen` accumulates the
keys already emitted). -/
def dedupFirstAux : List String → List String → List String
  | _, [] => []
  | seen, x :: xs =>
    if seen.contains x then dedupFirstAux seen xs
    else x :: dedupFirstAux (x :: seen) xs

/-- Go `GenerateServiceDefinitions`.  The Go function groups methods in a
`map[string][]QueryMethod` and iterates it in unspecified order; the
embedding fixes the canonical first-occurrence order of entities, which
affects only the order of the produced `ServiceDefinition`s, not their
contents. -/
def GenerateServiceDefinitions (queryMethods : List QueryMethod)
    (messages : List ProtoMessage) : List ServiceDefinition :=
  let entities := dedupFirstAux [] (queryMethods.map fun m => inferEntityFromMethodName m.Name)
  entities.map fun entity =>
    { Name := entity ++ "Service",
      Description := "Service for " ++ entity ++ " operations",
      Methods := (queryMethods.filter fun m => inferEntityFromMethodName m.Name == entity).map
        (buildServiceMethod messages entity) }

/-! ## The service-file transformation (`GenerateServiceFile`, internal/generator)

`GenerateServiceFile` first rewrites the service list in place (naming,
streaming, pagination passes) and then renders it through a template; the
rewrite is the pure part embedded here.  Only the `Config` fields that the
rewrite consumes are modelled. -/

/-- Go `ServiceOptions` (cmd/common/types.go). -/
structure ServiceOptions where
  IncludePagination : Bool := false
  SplitServices : Bool := false
  EnableStreaming : Bool := false
  PageSizeField : String := ""
  PageTokenField : String := ""
  NextPageTokenField : String := ""
  TotalSizeField : String := ""
deriving Repr, DecidableEq

/-- The service-related slice of `common.Config`. -/
structure Config where
  ServiceNaming : String := ""
  ServicePrefix : String := ""
  ServiceSuffix : String := ""
  ServiceOptions : ServiceOptions := {}
deriving Repr, DecidableEq

/-- The naming `switch` of `GenerateServiceFile`: `"flat"` and the default
(`"entity"`) leave the name alone; `"custom"` applies prefix and suffix
substitution (a trailing `"Service"` is removed before a non-default custom
suffix is appended). -/
def applyServiceNaming (config : Config) (name : String) : String :=
  if config.ServiceNaming == "flat" then name
  else if config.ServiceNaming == "custom" then
    let n := if config.ServicePrefix != "" then config.ServicePrefix ++ name else name
    if config.ServiceSuffix != "" && config.ServiceSuffix != "Service" then
      if hasSuffixGo n "Service" then strDropRightGo n 7 ++ config.ServiceSuffix
      else n ++ config.ServiceSuffix
    else n
  else name

/-- The streaming pass body: `List`-prefixed methods become
server-streaming. -/
def applyStreamingPass (m : ServiceMethod) : ServiceMethod :=
  if hasPrefixGo m.Name "List" then { m with StreamingServer := true } else m

/-- The request-field renaming of the pagination pass. -/
def renamePaginationRequestField (config : Config) (f : ProtoField) : ProtoField :=
  if f.Name == "limit" then { f with Name := config.ServiceOptions.PageSizeField }
  else if f.Name == "page_token" then { f with Name := config.ServiceOptions.PageTokenField }
  else f

/-- The response-field renaming of the pagination pass. -/
def renamePaginationResponseField (config : Config) (f : ProtoField) : ProtoField :=
  if f.Name == "next_page_token" then { f with Name := config.ServiceOptions.NextPageTokenField }
  else if f.Name == "total_size" then { f with Name := config.ServiceOptions.TotalSizeField }
  else f

/-- The pagination pass body: only `List`-prefixed methods have their
request/response fields renamed. -/
def applyPaginationPass (config : Config) (m : ServiceMethod) : ServiceMethod :=
  if hasPrefixGo m.Name "List" then
    { m with
        RequestFields := m.RequestFields.map (renamePaginationRequestField config),
        ResponseFields := m.ResponseFields.map (renamePaginationResponseField config) }
  else m

/-- The per-service rewrite of `GenerateServiceFile`: naming, then (when
enabled) the streaming pass over all methods, then (when enabled) the
pagination pass over all methods. -/
def transformService (config : Config) (svc : ServiceDefinition) : ServiceDefinition :=
  let name := applyServiceNaming config svc.Name
  let methods :=
    if config.ServiceOptions.EnableStreaming then svc.Methods.map applyStreamingPass
    else svc.Methods
  let methods :=
    if config.ServiceOptions.IncludePagination then methods.map (applyPaginationPass config)
    else methods
  { svc with Name := name, Methods := methods }

/-- The full in-place rewrite of the service list performed by
`GenerateServiceFile` before template rendering. -/
def GenerateServiceFileTransform (config : Config) (services : List ServiceDefinition) :
    List ServiceDefinition :=
  services.map (transformService config)

/-! ## Includes sets and dependency resolution (internal/includes) -/

/-- Go `IncludesFile` (internal/includes/types.go). -/
structure IncludesFile where
  Models : List String := []
  Queries : List String := []
deriving Repr, DecidableEq

/-- Go `isPrimitiveType` (internal/includes/dependencies.go). -/
def isPrimitiveType (typeName : String) : Bool :=
  typeName == "string" || typeName == "int32" || typeName == "int64" ||
  typeName == "float" || typeName == "double" || typeName == "bool" ||
  typeName == "bytes" || typeName == "google.protobuf.Timestamp"

/-- Lookup in the `messageMap` built by iterating the message list into a Go
map: on duplicate names the later entry wins. -/
def lookupMessage (messages : List ProtoMessage) (name : String) : Option ProtoMessage :=
  messages.reverse.find? fun m => m.Name == name

/-- Go `addModelAndDependencies` (internal/includes/dependencies.go), embedded
with an explicit recursion-depth budget `fuel`.  The Go recursion inserts a
previously-absent message name before every recursive descent, so its depth
is bounded by the number of distinct message names plus one;
`addModelAndDependencies_fuel_stable` below shows the result is
fuel-independent from that bound on, which is the Go function's termination
argument (cycles short-circuit on the already-present check). -/
def addModelAndDependencies (messages : List ProtoMessage) :
    Nat → String → Finset String → Finset String
  | 0, _, included => included
  | fuel + 1, modelName, included =>
    match lookupMessage messages modelName with
    | none => included
    | some model =>
      if modelName ∈ included then included
      else
        model.Fields.foldl
          (fun s f =>
            if isPrimitiveType f.«Type» then s
            else addModelAndDependencies messages fuel f.«Type» s)
          (insert modelName included)

/-- Go `ResolveDependencies` (internal/includes/dependencies.go).  The first
component is the `includedModels` set (which the Go function enumerates into
a slice in unspecified map order); the second is the `Queries` list, copied
verbatim into the result. -/
def ResolveDependencies (includes : IncludesFile) (queryMethods : List QueryMethod)
    (messages : List ProtoMessage) : Finset String × List String :=
  let fuel := messages.length + 1
  let included := includes.Queries.foldl
    (fun acc queryName =>
      match queryMethods.find? (fun m => m.Name == queryName) with
      | none => acc
      | some method =>
        let acc1 := method.ParamTypes.foldl
          (fun a p => addModelAndDependencies messages fuel p.«Type» a) acc
        if method.ReturnType != "" then
          addModelAndDependencies messages fuel method.ReturnType acc1
        else acc1)
    includes.Models.toFinset
  (included, includes.Queries)

/-! ## The includes file on disk (internal/includes/parser.go)

File contents are modelled as `List Char`.  `WriteIncludesFile` builds the
text below and writes it out; `LoadIncludesFile` feeds the text to
`yaml.Unmarshal`, an external library, whose behaviour on this restricted
document shape is modelled by `parseIncludesLines`. -/

/-- One entry line of `WriteIncludesFile` (`"- name\n"`, or `"# - name\n"`
when `commentOut` is set). -/
def includeEntryLine (commentOut : Bool) (name : String) : List Char :=
  (if commentOut then "# - " ++ name ++ "\n" else "- " ++ name ++ "\n").data

/-- An entry line without its terminating newline. -/
def includeEntryBody (commentOut : Bool) (name : String) : List Char :=
  (if commentOut then "# - " ++ name else "- " ++ name).data

/-- The exact content string built by `WriteIncludesFile`. -/
def WriteIncludesContent (models queries : List String) (commentOut : Bool) : List Char :=
  "models:\n".data ++ (models.map (includeEntryLine commentOut)).flatten ++
  "\nqueries:\n".data ++ (queries.map (includeEntryLine commentOut)).flatten

/-- Split a character stream at newlines (each `'\n'` terminates a line; the
suffix after the last newline is a final, possibly empty, line). -/
def splitLines : List Char → List (List Char)
  | [] => [[]]
  | c :: rest =>
    if c = '\n' then [] :: splitLines rest
    else
      match splitLines rest with
      | l :: ls => (c :: l) :: ls
      | [] => [[c]]

/-- Which top-level YAML sequence a line belongs to. -/
inductive YamlSection where
  | outside
  | models
  | queries
deriving Repr, DecidableEq

/-- Modelled from the spec: `LoadIncludesFile` delegates to
`yaml.Unmarshal` (gopkg.in/yaml.v3, an external dependency whose code is not
part of this repository).  This is its behaviour restricted to the documents
`WriteIncludesFile` emits — two named sequences whose entries are either
active (`- name`) or commented out (`# - name`): a `models:`/`queries:`
header selects the section, an active entry is appended to the current
section, and comment and blank lines are ignored, matching the spec's
"reading only recognizes active entries as included". -/
def parseIncludesLines : YamlSection → List (List Char) → IncludesFile
  | _, [] => {}
  | sec, line :: rest =>
    if line == "models:".data then parseIncludesLines .models rest
    else if line == "queries:".data then parseIncludesLines .queries rest
    else
      match line with
      | '-' :: ' ' :: nameChars =>
        let r := parseIncludesLines sec rest
        match sec with
        | .models => { r with Models := String.mk nameChars :: r.Models }
        | .queries => { r with Queries := String.mk nameChars :: r.Queries }
        | .outside => r
      | _ => parseIncludesLines sec rest

/-- Go `LoadIncludesFile` on in-memory content. -/
def LoadIncludesContent (content : List Char) : IncludesFile :=
  parseIncludesLines .outside (splitLines content)

/-- A Go identifier (ASCII model): the model and query names written to the
includes file are struct-type and method names. -/
def goIdentName (s : String) : Bool :=
  match s.data with
  | [] => false
  | c :: cs =>
    (isUpperA c || isLowerA c || c == '_') &&
    cs.all fun d => isUpperA d || isLowerA d || isDigitA d || d == '_'

/-- Names for which the modelled YAML reader provably agrees with
`yaml.Unmarshal`: identifiers that are not resolved as booleans by YAML's
1.1-compatible scalar resolution. -/
def yamlSafeName (s : String) : Bool :=
  goIdentName s &&
  !(["true", "True", "TRUE", "false", "False", "FALSE", "null", "Null", "NULL",
     "yes", "Yes", "YES", "no", "No", "NO", "on", "On", "ON", "off", "Off", "OFF",
     "y", "Y", "n", "N"].contains s)

/-! The theorems.  Basic lemmas about the field loop first. -/

theorem applyTagBlock_Number (b : Bool) (tag : Option String) (pf : ProtoField) :
    (applyTagBlock b tag pf).Number = pf.Number := by
  unfold applyTagBlock
  dsimp only
  (repeat' split) <;> rfl

theorem applyTagBlock_Type (b : Bool) (tag : Option String) (pf : ProtoField) :
    (applyTagBlock b tag pf).«Type» = pf.«Type» := by
  unfold applyTagBlock
  dsimp only
  (repeat' split) <;> rfl

theorem applyTagBlock_IsRepeated (b : Bool) (tag : Option String) (pf : ProtoField) :
    (applyTagBlock b tag pf).IsRepeated = pf.IsRepeated := by
  unfold applyTagBlock
  dsimp only
  (repeat' split) <;> rfl

theorem applyTagBlock_ConversionCode (b : Bool) (tag : Option String) (pf : ProtoField) :
    (applyTagBlock b tag pf).ConversionCode = pf.ConversionCode := by
  unfold applyTagBlock
  dsimp only
  (repeat' split) <;> rfl

theorem applyTagBlock_ReverseConversionCode (b : Bool) (tag : Option String) (pf : ProtoField) :
    (applyTagBlock b tag pf).ReverseConversionCode = pf.ReverseConversionCode := by
  unfold applyTagBlock
  dsimp only
  (repeat' split) <;> rfl

theorem applyTagBlock_IsOptional_of_true (b : Bool) (tag : Option String) (pf : ProtoField)
    (h : pf.IsOptional = true) : (applyTagBlock b tag pf).IsOptional = true := by
  unfold applyTagBlock
  dsimp only
  (repeat' split) <;> simpa using h

theorem update_IsRepeated_Type (pf : ProtoField) (b : Bool) :
    ({ pf with IsRepeated := b }).«Type» = pf.«Type» := rfl

theorem update_IsRepeated_IsRepeated (pf : ProtoField) (b : Bool) :
    ({ pf with IsRepeated := b }).IsRepeated = b := rfl

theorem update_IsRepeated_IsOptional (pf : ProtoField) (b : Bool) :
    ({ pf with IsRepeated := b }).IsOptional = pf.IsOptional := rfl

theorem update_IsRepeated_ConversionCode (pf : ProtoField) (b : Bool) :
    ({ pf with IsRepeated := b }).ConversionCode = pf.ConversionCode := rfl

theorem update_IsRepeated_ReverseConversionCode (pf : ProtoField) (b : Bool) :
    ({ pf with IsRepeated := b }).ReverseConversionCode = pf.ReverseConversionCode := rfl

theorem resolveFieldType_Number (nullable standard : String → Option String)
    (typeStr : String) (pf0 : ProtoField) :
    ((resolveFieldType nullable standard typeStr pf0).1).Number = pf0.Number := by
  unfold resolveFieldType
  dsimp only
  (repeat' split) <;> rfl

/-- A kept field records `Number = i + 1` where `i` is its raw declaration
index — the ordinal counts skipped members too. -/
theorem processStructField_number {nullable standard : String → Option String}
    {style : String} {i : Nat} {f : StructField} {pf : ProtoField}
    (h : processStructField nullable standard style i f = some pf) : pf.Number = i + 1 := by
  obtain ⟨names, type, tag, doc⟩ := f
  cases names with
  | nil => exact absurd h (by simp [processStructField])
  | cons name rest =>
    unfold processStructField at h
    dsimp only at h
    by_cases hexp : isGoExported name
    · rw [hexp] at h
      simp only [Bool.not_true, Bool.false_eq_true, if_false, Option.some.injEq] at h
      subst h
      rw [applyTagBlock_Number]
      exact resolveFieldType_Number ..
    · rw [Bool.eq_false_iff.mpr hexp] at h
      simp at h

/-- A field is kept exactly when it has a name and that name is exported. -/
theorem processStructField_eq_some_iff (nullable standard : String → Option String)
    (style : String) (i : Nat) (f : StructField) :
    (∃ pf, processStructField nullable standard style i f = some pf) ↔
      ∃ name rest, f.names = name :: rest ∧ isGoExported name = true := by
  obtain ⟨names, type, tag, doc⟩ := f
  cases names with
  | nil => simp [processStructField]
  | cons name rest =>
    unfold processStructField
    dsimp only
    by_cases hexp : isGoExported name
    · simp [hexp]
    · simp [Bool.eq_false_iff.mpr hexp, hexp]

/-! ## C7: entity inference -/

theorem inferEntityGo_resource (ps : List String) (m : String)
    (h : ∀ p ∈ ps, hasPrefixGo m p = true → residualForPrefix m p = "") :
    inferEntityGo ps m = "Resource" := by
  induction ps with
  | nil => rfl
  | cons p rest ih =>
    have h1 := h p (List.mem_cons_self p rest)
    have h2 : ∀ q ∈ rest, hasPrefixGo m q = true → residualForPrefix m q = "" :=
      fun q hq => h q (List.mem_cons_of_mem p hq)
    unfold inferEntityGo
    by_cases hp : hasPrefixGo m p = true
    · simp [hp, h1 hp, ih h2]
    · simp [hp, ih h2]

/-- C7: entity inference on `"ListActiveLoansByMember"` strips the `List`
prefix and keeps the full residual (no listed suffix matches and the
residual does not end in `s`), yielding `"ActiveLoansByMember"`; and any
method name whose residual after prefix/suffix stripping is empty for every
matching prefix falls back to the placeholder entity `"Resource"`. -/
theorem C7_entity_inference :
    inferEntityFromMethodName "ListActiveLoansByMember" = "ActiveLoansByMember" ∧
    ∀ methodName : String,
      (∀ p ∈ entityPrefixes, hasPrefixGo methodName p = true →
        residualForPrefix methodName p = "") →
      inferEntityFromMethodName methodName = "Resource" := by
  refine ⟨by decide, ?_⟩
  intro m h
  exact inferEntityGo_resource entityPrefixes m h

/-- Witness for C7: the concrete method name `"ListByID"` strips to an empty
residual and is inferred as `"Resource"`. -/
theorem C7_entity_inference_witness :
    inferEntityFromMethodName "ListByID" = "Resource" :=
  C7_entity_inference.2 "ListByID" (by decide)

/-! ## C4: pointer fields are unwrapped but not forced optional -/

/-- C4 (code bug): on the failing input — an exported field `Ptr *int64`
with no struct tag — the walker resolves the type through the unwrapped base
type (`int64`, via the standard table), but leaves the optional flag
`false`: nothing in `processSQLCFile` forces `IsOptional` for pointer
types, contrary to the forced-`true` behaviour the claim (and the repo's
own `TestPointerTypes` intent comment) describes. -/
theorem C4_pointer_not_forced_optional :
    (processStructField NullableTypeMapping TypeMapping "json" 0
        { names := ["Ptr"], type := .star (.ident "int64") }).map
      (fun pf => (pf.«Type», pf.IsOptional)) = some ("int64", false) := by decide

/-! ## Unfolding and lookup lemmas for the field loop -/

/-- Closed form of `processStructField` on a kept (named, exported) field. -/
theorem processStructField_eq (nullable standard : String → Option String)
    (style : String) (i : Nat) (name : String) (rest : List String) (ty : GoExpr)
    (tag : Option String) (doc : String) (h : isGoExported name = true) :
    processStructField nullable standard style i
        { names := name :: rest, type := ty, tag := tag, doc := doc } =
      some (applyTagBlock
        (resolveFieldType nullable standard (sliceAdjust (exprToTypeString ty)).1
          { Name := fieldNameForStyle style
              (match tag with | some tagValue => jsonNameFromTag tagValue | none => "") name,
            Number := i + 1, Comment := doc, SQLCName := name }).2
        tag
        { (resolveFieldType nullable standard (sliceAdjust (exprToTypeString ty)).1
            { Name := fieldNameForStyle style
                (match tag with | some tagValue => jsonNameFromTag tagValue | none => "") name,
              Number := i + 1, Comment := doc, SQLCName := name }).1 with
          IsRepeated := (sliceAdjust (exprToTypeString ty)).2 }) := by
  unfold processStructField
  dsimp only
  rw [h]
  rfl

theorem resolveFieldType_Type (nullable standard : String → Option String)
    (typeStr : String) (pf0 : ProtoField) :
    ((resolveFieldType nullable standard typeStr pf0).1).«Type» =
      lookupWireType nullable standard typeStr := by
  unfold resolveFieldType lookupWireType
  dsimp only
  (repeat' split) <;> rfl

theorem resolveFieldType_nullable {nullable standard : String → Option String}
    {typeStr p : String} (pf0 : ProtoField) (h : nullable typeStr = some p) :
    ((resolveFieldType nullable standard typeStr pf0).1).«Type» = p ∧
    ((resolveFieldType nullable standard typeStr pf0).1).IsOptional = true ∧
    (resolveFieldType nullable standard typeStr pf0).2 = true := by
  unfold resolveFieldType
  rw [h]
  exact ⟨rfl, rfl, rfl⟩

theorem resolveFieldType_standard {nullable standard : String → Option String}
    {typeStr p : String} (pf0 : ProtoField) (h1 : nullable typeStr = none)
    (h2 : standard typeStr = some p) :
    ((resolveFieldType nullable standard typeStr pf0).1).«Type» = p ∧
    ((resolveFieldType nullable standard typeStr pf0).1).IsOptional = pf0.IsOptional ∧
    (resolveFieldType nullable standard typeStr pf0).2 = false := by
  unfold resolveFieldType
  rw [h1, h2]
  exact ⟨rfl, rfl, rfl⟩

theorem resolveFieldType_unknown {nullable standard : String → Option String}
    {typeStr : String} (pf0 : ProtoField) (h1 : nullable typeStr = none)
    (h2 : standard typeStr = none) :
    ((resolveFieldType nullable standard typeStr pf0).1).«Type» = "string" ∧
    ((resolveFieldType nullable standard typeStr pf0).1).ConversionCode =
      "in." ++ pf0.SQLCName ∧
    ((resolveFieldType nullable standard typeStr pf0).1).ReverseConversionCode =
      "in." ++ camelToSnake pf0.SQLCName ∧
    (resolveFieldType nullable standard typeStr pf0).2 = false := by
  unfold resolveFieldType
  rw [h1, h2]
  exact ⟨rfl, rfl, rfl, rfl⟩

theorem sliceAdjust_not_slice {t : String} (h : hasPrefixGo t "[]" = false) :
    sliceAdjust t = (t, false) := by
  unfold sliceAdjust
  rw [h]
  simp

theorem hasPrefixGo_append (pre s : String) : hasPrefixGo (pre ++ s) pre = true := by
  unfold hasPrefixGo
  show (pre.data.isPrefixOf (pre.data ++ s.data)) = true
  rw [List.isPrefixOf_iff_prefix]
  exact List.prefix_append pre.data s.data

/-! ## C1: field ordinals -/

/-- C1 counterexample: in a struct whose first member is the unexported
field `hidden` and whose second member is the exported field `Visible`, the
single kept field is assigned ordinal 2 — its raw declaration index plus
one — although its 1-based position among the kept fields is 1.  A skipped
field does consume an ordinal, contradicting the claim as stated. -/
theorem C1_ordinals_counterexample :
    ((processStructType NullableTypeMapping TypeMapping "json" "S" ""
        [{ names := ["hidden"], type := .ident "int64" },
         { names := ["Visible"], type := .ident "int64" }]).Fields.map
      (fun f => (f.SQLCName, f.Number))) = [("Visible", 2)] ∧
    ((processStructType NullableTypeMapping TypeMapping "json" "S" ""
        [{ names := ["hidden"], type := .ident "int64" },
         { names := ["Visible"], type := .ident "int64" }]).Fields.map
      (fun f => f.Number)) ≠ [1] := by
  constructor
  · decide
  · decide

/-- C1 (amended): every kept field's ordinal equals its raw 1-based
declaration index (`Number = i + 1` for the member at index `i`), so skipped
unexported/embedded members do consume ordinals; ordinals are strictly
increasing along the kept-field list (hence unique within the message); and
because the walk is a pure function of the source field list, re-running it
on the same source in the same order reproduces identical ordinals. -/
theorem C1_ordinals_amended (nullable standard : String → Option String)
    (style name doc : String) (fields : List StructField) :
    (∀ pf ∈ (processStructType nullable standard style name doc fields).Fields,
      ∃ i f, fields[i]? = some f ∧
        processStructField nullable standard style i f = some pf ∧ pf.Number = i + 1) ∧
    ((processStructType nullable standard style name doc fields).Fields.map
      (fun f => f.Number)).Pairwise (· < ·) := by
  constructor
  · intro pf hpf
    have hmem : pf ∈ fields.enum.filterMap
        (fun p => processStructField nullable standard style p.1 p.2) := hpf
    rw [List.mem_filterMap] at hmem
    obtain ⟨⟨i, f⟩, hin, heq⟩ := hmem
    exact ⟨i, f, List.mem_enum_iff_getElem?.mp hin, heq, processStructField_number heq⟩
  · rw [List.pairwise_map]
    show List.Pairwise (fun a b : ProtoField => a.Number < b.Number)
      (fields.enum.filterMap
        fun p : Nat × StructField => processStructField nullable standard style p.1 p.2)
    refine List.Pairwise.filterMap (R := fun a b : Nat × StructField => a.1 < b.1)
      (fun p : Nat × StructField => processStructField nullable standard style p.1 p.2) ?_ ?_
    · intro a a' hlt b hb b' hb'
      rw [Option.mem_def] at hb hb'
      rw [processStructField_number hb, processStructField_number hb']
      omega
    · rw [List.pairwise_iff_getElem]
      intro i j hi hj hij
      simp only [List.getElem_enum]
      simpa using hij

/-- Witness for C1 (amended) at a concrete two-field struct: the kept field
`Visible` at raw index 1 carries ordinal 2. -/
theorem C1_ordinals_amended_witness :
    ∃ i f,
      ([{ names := ["hidden"], type := .ident "int64" },
        { names := ["Visible"], type := .ident "int64" }] : List StructField)[i]? = some f ∧
      processStructField NullableTypeMapping TypeMapping "json" i f =
        some ((processStructType NullableTypeMapping TypeMapping "json" "S" ""
          [{ names := ["hidden"], type := .ident "int64" },
           { names := ["Visible"], type := .ident "int64" }]).Fields.get ⟨0, by decide⟩) ∧
      ((processStructType NullableTypeMapping TypeMapping "json" "S" ""
          [{ names := ["hidden"], type := .ident "int64" },
           { names := ["Visible"], type := .ident "int64" }]).Fields.get ⟨0, by decide⟩).Number =
        i + 1 :=
  (C1_ordinals_amended NullableTypeMapping TypeMapping "json" "S" ""
    [{ names := ["hidden"], type := .ident "int64" },
     { names := ["Visible"], type := .ident "int64" }]).1 _ (List.get_mem _ _ _)

/-! ## C2: lookup order and graceful degradation -/

/-- C2: for a field of declared type `t` (not a slice shape), the walker
consults the nullable table first and marks the field optional on a hit;
otherwise the standard table decides the wire type; a name matching neither
table falls back to the generic `"string"` wire type.  Extraction is total:
it yields a field for every exported named member, whatever the type
expression. -/
theorem C2_lookup_order (nullable standard : String → Option String) (style : String)
    (i : Nat) (name t : String) (tag : Option String) (doc : String)
    (hname : isGoExported name = true) (hslice : hasPrefixGo t "[]" = false) :
    (∀ p, nullable t = some p →
      ∃ pf, processStructField nullable standard style i
          { names := [name], type := .ident t, tag := tag, doc := doc } = some pf ∧
        pf.«Type» = p ∧ pf.IsOptional = true) ∧
    (nullable t = none → ∀ p, standard t = some p →
      ∃ pf, processStructField nullable standard style i
          { names := [name], type := .ident t, tag := tag, doc := doc } = some pf ∧
        pf.«Type» = p) ∧
    (nullable t = none → standard t = none →
      ∃ pf, processStructField nullable standard style i
          { names := [name], type := .ident t, tag := tag, doc := doc } = some pf ∧
        pf.«Type» = "string") ∧
    (∀ ty : GoExpr, ∃ pf, processStructField nullable standard style i
        { names := [name], type := ty, tag := tag, doc := doc } = some pf) := by
  have hexpr : exprToTypeString (.ident t) = t := rfl
  refine ⟨?_, ?_, ?_, ?_⟩
  · intro p hp
    rw [processStructField_eq nullable standard style i name [] _ tag doc hname]
    refine ⟨_, rfl, ?_, ?_⟩
    · rw [applyTagBlock_Type, update_IsRepeated_Type, hexpr, sliceAdjust_not_slice hslice]
      exact (resolveFieldType_nullable _ hp).1
    · apply applyTagBlock_IsOptional_of_true
      rw [update_IsRepeated_IsOptional, hexpr, sliceAdjust_not_slice hslice]
      exact (resolveFieldType_nullable _ hp).2.1
  · intro hn p hp
    rw [processStructField_eq nullable standard style i name [] _ tag doc hname]
    refine ⟨_, rfl, ?_⟩
    rw [applyTagBlock_Type, update_IsRepeated_Type, hexpr, sliceAdjust_not_slice hslice]
    exact (resolveFieldType_standard _ hn hp).1
  · intro hn hs
    rw [processStructField_eq nullable standard style i name [] _ tag doc hname]
    refine ⟨_, rfl, ?_⟩
    rw [applyTagBlock_Type, update_IsRepeated_Type, hexpr, sliceAdjust_not_slice hslice]
    exact (resolveFieldType_unknown _ hn hs).1
  · intro ty
    exact ⟨_, processStructField_eq nullable standard style i name [] ty tag doc hname⟩

/-- Witness for C2 on the built-in tables: `sql.NullString` resolves through
the nullable table to an optional `string`; `float64` through the standard
table to `double`; the unmapped `decimal.Decimal` degrades to `string`; and
extraction succeeds even on an unclassifiable type expression. -/
theorem C2_lookup_order_witness :
    (∃ pf, processStructField NullableTypeMapping TypeMapping "json" 0
        { names := ["F"], type := .ident "sql.NullString" } = some pf ∧
      pf.«Type» = "string" ∧ pf.IsOptional = true) ∧
    (∃ pf, processStructField NullableTypeMapping TypeMapping "json" 0
        { names := ["F"], type := .ident "float64" } = some pf ∧
      pf.«Type» = "double") ∧
    (∃ pf, processStructField NullableTypeMapping TypeMapping "json" 0
        { names := ["F"], type := .ident "decimal.Decimal" } = some pf ∧
      pf.«Type» = "string") ∧
    (∃ pf, processStructField NullableTypeMapping TypeMapping "json" 0
        { names := ["F"], type := .other } = some pf) := by
  refine ⟨?_, ?_, ?_, ?_⟩
  · exact (C2_lookup_order NullableTypeMapping TypeMapping "json" 0 "F" "sql.NullString"
      none "" (by decide) (by decide)).1 "string" rfl
  · exact (C2_lookup_order NullableTypeMapping TypeMapping "json" 0 "F" "float64"
      none "" (by decide) (by decide)).2.1 rfl "double" rfl
  · exact (C2_lookup_order NullableTypeMapping TypeMapping "json" 0 "F" "decimal.Decimal"
      none "" (by decide) (by decide)).2.2.1 rfl rfl
  · exact (C2_lookup_order NullableTypeMapping TypeMapping "json" 0 "F" "x"
      none "" (by decide) (by decide)).2.2.2 .other

/-! ## C3: slice shapes -/

theorem sliceAdjust_slice {e : String} (h1 : e ≠ "byte") (h2 : e ≠ "[]byte") :
    sliceAdjust ("[]" ++ e) = (e, true) := by
  unfold sliceAdjust
  rw [hasPrefixGo_append]
  rw [show strDropGo ("[]" ++ e) 2 = e from rfl]
  simp [h1, h2]

/-- C3: a `[]byte` field maps to wire type `bytes` and is not repeated; a
`[][]byte` field maps to wire type `bytes` and is repeated (repeated-bytes,
never repeated-repeated-byte); any other slice `[]E` becomes a repeated
field whose wire type is whatever `E`'s type string resolves to through the
lookup chain. -/
theorem C3_byte_slices (style : String) (i : Nat) (name : String) (tag : Option String)
    (doc : String) (hname : isGoExported name = true) :
    (∃ pf, processStructField NullableTypeMapping TypeMapping style i
        { names := [name], type := .array (.ident "byte"), tag := tag, doc := doc } = some pf ∧
      pf.«Type» = "bytes" ∧ pf.IsRepeated = false) ∧
    (∃ pf, processStructField NullableTypeMapping TypeMapping style i
        { names := [name], type := .array (.array (.ident "byte")), tag := tag, doc := doc } =
          some pf ∧
      pf.«Type» = "bytes" ∧ pf.IsRepeated = true) ∧
    (∀ (nullable standard : String → Option String) (elt : GoExpr),
      exprToTypeString elt ≠ "byte" → exprToTypeString elt ≠ "[]byte" →
      ∃ pf, processStructField nullable standard style i
          { names := [name], type := .array elt, tag := tag, doc := doc } = some pf ∧
        pf.IsRepeated = true ∧
        pf.«Type» = lookupWireType nullable standard (exprToTypeString elt)) := by
  refine ⟨?_, ?_, ?_⟩
  · rw [processStructField_eq NullableTypeMapping TypeMapping style i name [] _ tag doc hname]
    refine ⟨_, rfl, ?_, ?_⟩
    · rw [applyTagBlock_Type, update_IsRepeated_Type,
        show sliceAdjust (exprToTypeString (.array (.ident "byte"))) = ("[]byte", false)
          from by decide]
      have hn : NullableTypeMapping "[]byte" = none := rfl
      have hs : TypeMapping "[]byte" = some "bytes" := rfl
      exact (resolveFieldType_standard _ hn hs).1
    · rw [applyTagBlock_IsRepeated, update_IsRepeated_IsRepeated,
        show sliceAdjust (exprToTypeString (.array (.ident "byte"))) = ("[]byte", false)
          from by decide]
  · rw [processStructField_eq NullableTypeMapping TypeMapping style i name [] _ tag doc hname]
    refine ⟨_, rfl, ?_, ?_⟩
    · rw [applyTagBlock_Type, update_IsRepeated_Type,
        show sliceAdjust (exprToTypeString (.array (.array (.ident "byte")))) =
          ("[]byte", true) from by decide]
      have hn : NullableTypeMapping "[]byte" = none := rfl
      have hs : TypeMapping "[]byte" = some "bytes" := rfl
      exact (resolveFieldType_standard _ hn hs).1
    · rw [applyTagBlock_IsRepeated, update_IsRepeated_IsRepeated,
        show sliceAdjust (exprToTypeString (.array (.array (.ident "byte")))) =
          ("[]byte", true) from by decide]
  · intro nullable standard elt h1 h2
    rw [processStructField_eq nullable standard style i name [] _ tag doc hname]
    have hexpr : exprToTypeString (.array elt) = "[]" ++ exprToTypeString elt := rfl
    refine ⟨_, rfl, ?_, ?_⟩
    · rw [applyTagBlock_IsRepeated, update_IsRepeated_IsRepeated, hexpr,
        sliceAdjust_slice h1 h2]
    · rw [applyTagBlock_Type, update_IsRepeated_Type, hexpr, sliceAdjust_slice h1 h2]
      exact resolveFieldType_Type ..

/-- Witness for C3: `[]byte` / `[][]byte` / `[]string` fields of a concrete
struct member named `Data`. -/
theorem C3_byte_slices_witness :
    (∃ pf, processStructField NullableTypeMapping TypeMapping "json" 0
        { names := ["Data"], type := .array (.ident "byte") } = some pf ∧
      pf.«Type» = "bytes" ∧ pf.IsRepeated = false) ∧
    (∃ pf, processStructField NullableTypeMapping TypeMapping "json" 0
        { names := ["Data"], type := .array (.array (.ident "byte")) } = some pf ∧
      pf.«Type» = "bytes" ∧ pf.IsRepeated = true) ∧
    (∃ pf, processStructField NullableTypeMapping TypeMapping "json" 0
        { names := ["Data"], type := .array (.ident "string") } = some pf ∧
      pf.IsRepeated = true ∧
      pf.«Type» = lookupWireType NullableTypeMapping TypeMapping "string") := by
  have h := C3_byte_slices "json" 0 "Data" none "" (by decide)
  exact ⟨h.1, h.2.1, h.2.2 NullableTypeMapping TypeMapping (.ident "string")
    (by decide) (by decide)⟩

/-! ## C9: conversion expressions for unmapped types -/

theorem pascal_pattern {A : String} (C B q : String) (h : A = C ++ "in.") :
    ∃ pre post, A ++ q ++ B = pre ++ ("in." ++ q) ++ post :=
  ⟨C, B, by subst h; rw [String.append_assoc C "in." q]⟩

/-- Every arm of `generateReverseNullableConversionCode` embeds
`in.<PascalCase wire name>`. -/
theorem generateReverseNullableConversionCode_pascal (sqlType : String) (f : ProtoField) :
    ∃ pre post, generateReverseNullableConversionCode sqlType f =
      pre ++ ("in." ++ toCamel f.Name) ++ post := by
  unfold generateReverseNullableConversionCode
  dsimp only
  split
  · exact pascal_pattern "stringToNullString(" ")" _ rfl
  · exact pascal_pattern "int32ToNullInt16(" ")" _ rfl
  · exact pascal_pattern "int32ToNullInt32(" ")" _ rfl
  · exact pascal_pattern "int64ToNullInt64(" ")" _ rfl
  · exact pascal_pattern "float64ToNullFloat64(" ")" _ rfl
  · exact pascal_pattern "boolToNullBool(" ")" _ rfl
  · exact pascal_pattern "timestampToNullTime(" ")" _ rfl
  · exact pascal_pattern "stringToNullUUID(" ")" _ rfl
  · exact ⟨"", "", by simp⟩

/-- Every arm of `generateReverseStandardConversionCode` embeds
`in.<PascalCase wire name>`. -/
theorem generateReverseStandardConversionCode_pascal (sqlType : String) (f : ProtoField) :
    ∃ pre post, generateReverseStandardConversionCode sqlType f =
      pre ++ ("in." ++ toCamel f.Name) ++ post := by
  unfold generateReverseStandardConversionCode
  dsimp only
  split
  · exact pascal_pattern "" ".AsTime()" _ rfl
  · exact pascal_pattern "timestampToDate(" ")" _ rfl
  · exact pascal_pattern "timestampToTimestamptz(" ")" _ rfl
  · exact pascal_pattern "stringToPgtypeText(" ")" _ rfl
  · exact pascal_pattern "stringToNumeric(" ")" _ rfl
  · exact pascal_pattern "stringToUUID(" ")" _ rfl
  · exact pascal_pattern "stringToJSON(" ")" _ rfl
  · exact pascal_pattern "int64ToInterval(" ")" _ rfl
  · exact pascal_pattern "int16(" ")" _ rfl
  · exact ⟨"", "", by simp⟩

/-- C9: a kept field whose declared type matches neither table gets the
forward conversion `in.<GoFieldName>` but the reverse conversion
`in.<snake_case(GoFieldName)>`, whereas every table-mapped type's reverse
conversion embeds `in.<PascalCase(wire field name)>`. -/
theorem C9_unknown_type_conversion (nullable standard : String → Option String)
    (style : String) (i : Nat) (name t : String) (tag : Option String) (doc : String)
    (hname : isGoExported name = true) (hslice : hasPrefixGo t "[]" = false)
    (h1 : nullable t = none) (h2 : standard t = none) :
    (∃ pf, processStructField nullable standard style i
        { names := [name], type := .ident t, tag := tag, doc := doc } = some pf ∧
      pf.ConversionCode = "in." ++ name ∧
      pf.ReverseConversionCode = "in." ++ camelToSnake name) ∧
    (∀ (sqlType : String) (f : ProtoField),
      ∃ pre post, generateReverseNullableConversionCode sqlType f =
        pre ++ ("in." ++ toCamel f.Name) ++ post) ∧
    (∀ (sqlType : String) (f : ProtoField),
      ∃ pre post, generateReverseStandardConversionCode sqlType f =
        pre ++ ("in." ++ toCamel f.Name) ++ post) := by
  have hexpr : exprToTypeString (.ident t) = t := rfl
  refine ⟨?_, generateReverseNullableConversionCode_pascal,
    generateReverseStandardConversionCode_pascal⟩
  rw [processStructField_eq nullable standard style i name [] _ tag doc hname]
  refine ⟨_, rfl, ?_, ?_⟩
  · rw [applyTagBlock_ConversionCode, update_IsRepeated_ConversionCode, hexpr,
      sliceAdjust_not_slice hslice]
    exact (resolveFieldType_unknown _ h1 h2).2.1
  · rw [applyTagBlock_ReverseConversionCode, update_IsRepeated_ReverseConversionCode, hexpr,
      sliceAdjust_not_slice hslice]
    exact (resolveFieldType_unknown _ h1 h2).2.2.1

/-- Witness for C9: the unmapped `decimal.Decimal` field `Amount` yields
forward `in.Amount` and reverse `in.amount`, and the mapped `sql.NullString`
reverse generator embeds the Pascal form of a concrete wire name. -/
theorem C9_unknown_type_conversion_witness :
    (∃ pf, processStructField NullableTypeMapping TypeMapping "json" 0
        { names := ["Amount"], type := .ident "decimal.Decimal" } = some pf ∧
      pf.ConversionCode = "in." ++ "Amount" ∧
      pf.ReverseConversionCode = "in." ++ camelToSnake "Amount") ∧
    (∃ pre post, generateReverseNullableConversionCode "sql.NullString"
        { Name := "reference_code" } =
      pre ++ ("in." ++ toCamel "reference_code") ++ post) := by
  have h := C9_unknown_type_conversion NullableTypeMapping TypeMapping "json" 0
    "Amount" "decimal.Decimal" none "" (by decide) (by decide) rfl rfl
  exact ⟨h.1, h.2.1 "sql.NullString" { Name := "reference_code" }⟩

/-! ## C10: the service-file rewrite touches only List-methods -/

theorem applyServiceNaming_of_not_custom (config : Config) (n : String)
    (h : config.ServiceNaming ≠ "custom") : applyServiceNaming config n = n := by
  unfold applyServiceNaming
  have hc : (config.ServiceNaming == "custom") = false := beq_eq_false_iff_ne.mpr h
  by_cases hf : (config.ServiceNaming == "flat") = true
  · simp [hf]
  · simp [hf, hc]

theorem applyStreamingPass_not_list (m : ServiceMethod)
    (h : hasPrefixGo m.Name "List" = false) : applyStreamingPass m = m := by
  unfold applyStreamingPass
  simp [h]

theorem applyPaginationPass_not_list (config : Config) (m : ServiceMethod)
    (h : hasPrefixGo m.Name "List" = false) : applyPaginationPass config m = m := by
  unfold applyPaginationPass
  simp [h]

/-- C10: the `GenerateServiceFile` rewrite is a frame transformation: it
maps each service in place (list length preserved); a service's name is
unchanged whenever the naming style is not `"custom"`; and every method
whose name does not begin with `List` comes through completely unchanged —
request fields, response fields, and streaming flags included — under any
combination of the streaming and pagination options. -/
theorem C10_service_file_frame (config : Config) (services : List ServiceDefinition) :
    (GenerateServiceFileTransform config services).length = services.length ∧
    ∀ (j : Nat) (svc tsvc : ServiceDefinition), services[j]? = some svc →
      (GenerateServiceFileTransform config services)[j]? = some tsvc →
      (config.ServiceNaming ≠ "custom" → tsvc.Name = svc.Name) ∧
      tsvc.Methods.length = svc.Methods.length ∧
      ∀ (k : Nat) (m tm : ServiceMethod), svc.Methods[k]? = some m → tsvc.Methods[k]? = some tm →
        hasPrefixGo m.Name "List" = false → tm = m := by
  refine ⟨by simp [GenerateServiceFileTransform], ?_⟩
  intro j svc tsvc hj htj
  have htsvc : tsvc = transformService config svc := by
    rw [GenerateServiceFileTransform, List.getElem?_map, hj] at htj
    exact (Option.some.inj htj).symm
  subst htsvc
  have hmethods : (transformService config svc).Methods =
      ((if config.ServiceOptions.EnableStreaming then
          svc.Methods.map applyStreamingPass else svc.Methods).map
        (fun m => if config.ServiceOptions.IncludePagination then
          applyPaginationPass config m else m)) := by
    unfold transformService
    by_cases hS : config.ServiceOptions.EnableStreaming <;>
      by_cases hP : config.ServiceOptions.IncludePagination <;>
      simp [hS, hP]
  refine ⟨?_, ?_, ?_⟩
  · intro h
    exact applyServiceNaming_of_not_custom config svc.Name h
  · rw [hmethods]
    by_cases hS : config.ServiceOptions.EnableStreaming <;> simp [hS]
  · intro k m tm hk htk hm
    rw [hmethods] at htk
    by_cases hS : config.ServiceOptions.EnableStreaming <;>
      by_cases hP : config.ServiceOptions.IncludePagination <;>
      simp [hS, hP, List.getElem?_map, hk] at htk <;>
      (try subst htk) <;>
      (try rw [applyStreamingPass_not_list m hm]) <;>
      simp [applyPaginationPass_not_list config m hm, applyStreamingPass_not_list m hm]

/-- Witness for C10: with streaming and pagination both enabled (and the
default entity naming), the non-`List` method `GetBook` of a concrete
service is untouched. -/
theorem C10_service_file_frame_witness :
    (GenerateServiceFileTransform
        { ServiceNaming := "entity",
          ServiceOptions := { IncludePagination := true, EnableStreaming := true,
                              PageSizeField := "page_size", PageTokenField := "page_token",
                              NextPageTokenField := "next_page_token",
                              TotalSizeField := "total_size" } }
        [{ Name := "BookService",
           Methods := [{ Name := "GetBook", RequestFields := [{ Name := "id" }] }] }]).length =
      1 ∧
    ({ Name := "BookService",
       Methods := [{ Name := "GetBook", RequestFields := [{ Name := "id" }] }] } :
        ServiceDefinition).Name = "BookService" ∧
    ∀ tm, (GenerateServiceFileTransform
        { ServiceNaming := "entity",
          ServiceOptions := { IncludePagination := true, EnableStreaming := true,
                              PageSizeField := "page_size", PageTokenField := "page_token",
                              NextPageTokenField := "next_page_token",
                              TotalSizeField := "total_size" } }
        [{ Name := "BookService",
           Methods := [{ Name := "GetBook", RequestFields := [{ Name := "id" }] }] }]).headD
        {} |>.Methods[0]? = some tm →
      tm = { Name := "GetBook", RequestFields := [{ Name := "id" }] } := by
  refine ⟨?_, rfl, ?_⟩
  · exact (C10_service_file_frame _ _).1
  · intro tm htm
    have h := (C10_service_file_frame
      { ServiceNaming := "entity",
        ServiceOptions := { IncludePagination := true, EnableStreaming := true,
                            PageSizeField := "page_size", PageTokenField := "page_token",
                            NextPageTokenField := "next_page_token",
                            TotalSizeField := "total_size" } }
      [{ Name := "BookService",
         Methods := [{ Name := "GetBook", RequestFields := [{ Name := "id" }] }] }]).2
      0 _ _ rfl rfl
    exact (h.2.2 0 _ tm rfl htm (by decide))

/-! ## C6: pagination de-duplication checks a hardcoded name -/

/-- C6 counterexample: a `ListBooks` query whose parameter list already
contains a field carrying the configured page-size field name
(`"page_size"`) **does** receive a second synthesized page-size field: the
presence check in `GenerateServiceDefinitions` compares against the
hardcoded default `"limit"`, and the pagination pass of
`GenerateServiceFile` then renames the synthesized `"limit"` to
`"page_size"`, so the final request carries `"page_size"` twice. -/
theorem C6_pagination_dedup_counterexample :
    ((GenerateServiceFileTransform
        { ServiceNaming := "entity",
          ServiceOptions := { IncludePagination := true, PageSizeField := "page_size",
                              PageTokenField := "page_token",
                              NextPageTokenField := "next_page_token",
                              TotalSizeField := "total_size" } }
        (GenerateServiceDefinitions
          [{ Name := "ListBooks", «Type» := .many,
             ParamTypes := [{ Name := "pageSize", «Type» := "int32" }],
             ReturnType := "Book", IsArray := true }] [])).map
      (fun s => s.Methods.map (fun m => m.RequestFields.map (fun f => f.Name)))) =
      [[["page_size", "page_size", "page_token"]]] ∧
    ((((GenerateServiceFileTransform
        { ServiceNaming := "entity",
          ServiceOptions := { IncludePagination := true, PageSizeField := "page_size",
                              PageTokenField := "page_token",
                              NextPageTokenField := "next_page_token",
                              TotalSizeField := "total_size" } }
        (GenerateServiceDefinitions
          [{ Name := "ListBooks", «Type» := .many,
             ParamTypes := [{ Name := "pageSize", «Type» := "int32" }],
             ReturnType := "Book", IsArray := true }] [])).headD {}).Methods.headD
        {}).RequestFields.countP (fun f => f.Name == "page_size")) = 2 := by
  constructor
  · rfl
  · rfl

/-- C6 (amended): the de-duplication check in `GenerateServiceDefinitions`
is performed against the hardcoded default request-field names `"limit"` and
`"offset"`, not the configured page-size field name: a `List` query whose
parameters already produced a request field literally named `"limit"` gets
no second synthesized page-size field (at most the `page_token` field is
still appended), while a parameter named with a custom configured page-size
name does not suppress synthesis (see the counterexample). -/
theorem C6_pagination_dedup_amended (messages : List ProtoMessage) (entity : String)
    (method : QueryMethod)
    (hlist : hasPrefixGo method.Name "List" = true)
    (hparams : 0 < method.ParamTypes.length)
    (hlimit : (paramRequestFields messages method.ParamTypes).any
      (fun f => f.Name == "limit") = true) :
    (buildServiceMethod messages entity method).RequestFields =
      paramRequestFields messages method.ParamTypes ++
        (if (paramRequestFields messages method.ParamTypes).any
            (fun f => f.Name == "offset") = true then []
         else [{ Name := "page_token", «Type» := "string",
                 Number := (paramRequestFields messages method.ParamTypes).length + 1,
                 Comment := "Page token for pagination" }]) := by
  unfold buildServiceMethod
  dsimp only
  rw [if_pos hparams]
  unfold appendPaginationRequestFields
  rw [hlist]
  dsimp only
  rw [hlimit]
  by_cases hoff : (paramRequestFields messages method.ParamTypes).any
      (fun f => f.Name == "offset") = true
  · simp [hoff]
  · simp [hoff]

/-- Witness for C6 (amended): a concrete `ListBooks` query with a parameter
already named `limit` receives no second page-size field. -/
theorem C6_pagination_dedup_amended_witness :
    (buildServiceMethod [] "Book"
      { Name := "ListBooks", «Type» := .many,
        ParamTypes := [{ Name := "limit", «Type» := "int32" }],
        ReturnType := "Book", IsArray := true }).RequestFields =
      paramRequestFields [] [{ Name := "limit", «Type» := "int32" }] ++
        (if (paramRequestFields [] [{ Name := "limit", «Type» := "int32" }]).any
            (fun f => f.Name == "offset") = true then []
         else [{ Name := "page_token", «Type» := "string",
                 Number := (paramRequestFields []
                   [{ Name := "limit", «Type» := "int32" }]).length + 1,
                 Comment := "Page token for pagination" }]) :=
  C6_pagination_dedup_amended [] "Book"
    { Name := "ListBooks", «Type» := .many,
      ParamTypes := [{ Name := "limit", «Type» := "int32" }],
      ReturnType := "Book", IsArray := true } (by decide) (by decide) (by decide)

/-! ## C5: dependency resolution -/

theorem subset_foldl_of_step (step : Finset String → ProtoField → Finset String)
    (hstep : ∀ s f, s ⊆ step s f) :
    ∀ (l : List ProtoField) (s : Finset String), s ⊆ l.foldl step s := by
  intro l
  induction l with
  | nil => intro s; exact Finset.Subset.refl s
  | cons f fs ih => intro s; exact (hstep s f).trans (ih (step s f))

/-- The Go recursion only ever grows the included set. -/
theorem subset_addModelAndDependencies (messages : List ProtoMessage) :
    ∀ (fuel : Nat) (name : String) (included : Finset String),
      included ⊆ addModelAndDependencies messages fuel name included := by
  intro fuel
  induction fuel with
  | zero => intro name included; exact Finset.Subset.refl included
  | succ f ih =>
    intro name included
    unfold addModelAndDependencies
    cases hL : lookupMessage messages name with
    | none => exact Finset.Subset.refl included
    | some model =>
      by_cases hm : name ∈ included
      · simp [hm]
      · simp only [hm, if_false]
        refine (Finset.subset_insert name included).trans ?_
        exact subset_foldl_of_step _
          (fun s fld => by
            by_cases hp : isPrimitiveType fld.«Type»
            · simp [hp]
            · simp only [hp, Bool.false_eq_true, if_false]
              exact ih fld.«Type» s)
          model.Fields (insert name included)

theorem lookupMessage_name_mem {messages : List ProtoMessage} {name : String}
    {m : ProtoMessage} (h : lookupMessage messages name = some m) :
    name ∈ messages.map (fun msg => msg.Name) := by
  unfold lookupMessage at h
  have hp := List.find?_some h
  have hmem : m ∈ messages.reverse := List.mem_of_find?_eq_some h
  rw [List.mem_reverse] at hmem
  exact List.mem_map.mpr ⟨m, hmem, by simpa using hp⟩

/-- One extra unit of fuel is irrelevant once the fuel exceeds the number of
message names not yet included: this is the termination argument of the Go
recursion (each descent inserts a previously-absent message name, and the
already-present check short-circuits cycles). -/
theorem addModelAndDependencies_fuel_succ (messages : List ProtoMessage) :
    ∀ (fuel : Nat) (name : String) (included : Finset String),
      ((messages.map fun m => m.Name).toFinset \ included).card < fuel →
      addModelAndDependencies messages (fuel + 1) name included =
        addModelAndDependencies messages fuel name included := by
  intro fuel
  induction fuel using Nat.strong_induction_on with
  | _ fuel ih =>
    intro name included hcard
    have hpos : 0 < fuel := lt_of_le_of_lt (Nat.zero_le _) hcard
    obtain ⟨f, rfl⟩ : ∃ f, fuel = f + 1 := ⟨fuel - 1, (Nat.succ_pred_eq_of_pos hpos).symm⟩
    show addModelAndDependencies messages (f + 1 + 1) name included =
      addModelAndDependencies messages (f + 1) name included
    unfold addModelAndDependencies
    cases hL : lookupMessage messages name with
    | none => rfl
    | some model =>
      by_cases hm : name ∈ included
      · simp [hm]
      · simp only [hm, if_false]
        have hname : name ∈ (messages.map fun m => m.Name).toFinset :=
          List.mem_toFinset.mpr (lookupMessage_name_mem hL)
        have hbase : ((messages.map fun m => m.Name).toFinset \ insert name included).card < f := by
          have hsd : (messages.map fun m => m.Name).toFinset \ insert name included =
              ((messages.map fun m => m.Name).toFinset \ included).erase name := by
            ext a
            simp only [Finset.mem_sdiff, Finset.mem_insert, Finset.mem_erase]
            tauto
          have hmemsd : name ∈ (messages.map fun m => m.Name).toFinset \ included :=
            Finset.mem_sdiff.mpr ⟨hname, hm⟩
          have hpos2 : 0 < ((messages.map fun m => m.Name).toFinset \ included).card :=
            Finset.card_pos.mpr ⟨name, hmemsd⟩
          rw [hsd, Finset.card_erase_of_mem hmemsd]
          omega
        have hfold : ∀ (l : List ProtoField) (s : Finset String),
            insert name included ⊆ s →
            l.foldl (fun s' fld => if isPrimitiveType fld.«Type» then s'
              else addModelAndDependencies messages (f + 1) fld.«Type» s') s =
            l.foldl (fun s' fld => if isPrimitiveType fld.«Type» then s'
              else addModelAndDependencies messages f fld.«Type» s') s := by
          intro l
          induction l with
          | nil => intro s _; rfl
          | cons fld rest ihl =>
            intro s hs
            simp only [List.foldl_cons]
            by_cases hp : isPrimitiveType fld.«Type»
            · simp only [hp, if_true]
              exact ihl s hs
            · simp only [hp, Bool.false_eq_true, if_false]
              have hcards : ((messages.map fun m => m.Name).toFinset \ s).card < f := by
                have : (messages.map fun m => m.Name).toFinset \ s ⊆
                    (messages.map fun m => m.Name).toFinset \ insert name included :=
                  Finset.sdiff_subset_sdiff (Finset.Subset.refl _) hs
                exact lt_of_le_of_lt (Finset.card_le_card this) hbase
              rw [show addModelAndDependencies messages (f + 1) fld.«Type» s =
                  addModelAndDependencies messages f fld.«Type» s from
                ih f (by omega) fld.«Type» s hcards]
              refine ihl _ (hs.trans ?_)
              exact subset_addModelAndDependencies messages f fld.«Type» s
        exact hfold model.Fields (insert name included) (Finset.Subset.refl _)

/-- Above the card bound, the result is independent of the fuel value. -/
theorem addModelAndDependencies_fuel_ge (messages : List ProtoMessage) (name : String)
    (included : Finset String) (base fuel : Nat)
    (hbase : ((messages.map fun m => m.Name).toFinset \ included).card < base)
    (hle : base ≤ fuel) :
    addModelAndDependencies messages fuel name included =
      addModelAndDependencies messages base name included := by
  induction fuel, hle using Nat.le_induction with
  | base => rfl
  | succ n hn ihn =>
    rw [addModelAndDependencies_fuel_succ messages n name included
      (lt_of_lt_of_le hbase hn)]
    exact ihn

/-- C5: on the message graph `A{x: B}`, `B{y: C}`, `C{z: int32}` and an
includes set naming only the query `GetA` (which returns `A`), the resolved
model set is exactly `{A, B, C}`; the query-name list is always copied
verbatim to the output (queries are never expanded); and on a cyclic graph
`A{x: B}`, `B{y: A}` the expansion is a terminating closure: for every fuel
beyond the message count the result is the stable fixpoint `{A, B}`. -/
theorem C5_dependency_closure :
    (ResolveDependencies { Models := [], Queries := ["GetA"] }
        [{ Name := "GetA", «Type» := .one, ReturnType := "A" }]
        [{ Name := "A", Fields := [{ Name := "x", «Type» := "B" }] },
         { Name := "B", Fields := [{ Name := "y", «Type» := "C" }] },
         { Name := "C", Fields := [{ Name := "z", «Type» := "int32" }] }]).1 =
      {"A", "B", "C"} ∧
    (∀ (includes : IncludesFile) (queryMethods : List QueryMethod)
        (messages : List ProtoMessage),
      (ResolveDependencies includes queryMethods messages).2 = includes.Queries) ∧
    (∀ fuel, 3 ≤ fuel →
      addModelAndDependencies
        [{ Name := "A", Fields := [{ Name := "x", «Type» := "B" }] },
         { Name := "B", Fields := [{ Name := "y", «Type» := "A" }] }] fuel "A" ∅ =
      {"A", "B"}) := by
  refine ⟨by decide, fun _ _ _ => rfl, ?_⟩
  intro fuel hf
  rw [addModelAndDependencies_fuel_ge
    [{ Name := "A", Fields := [{ Name := "x", «Type» := "B" }] },
     { Name := "B", Fields := [{ Name := "y", «Type» := "A" }] }] "A" ∅ 3 fuel (by decide) hf]
  decide

/-- Witness for C5: the cyclic-graph closure evaluated at the concrete fuel
5, and the query-list preservation at a concrete input. -/
theorem C5_dependency_closure_witness :
    addModelAndDependencies
      [{ Name := "A", Fields := [{ Name := "x", «Type» := "B" }] },
       { Name := "B", Fields := [{ Name := "y", «Type» := "A" }] }] 5 "A" ∅ = {"A", "B"} ∧
    (ResolveDependencies { Models := ["X"], Queries := ["GetA"] } [] []).2 = ["GetA"] :=
  ⟨C5_dependency_closure.2.2 5 (by decide), C5_dependency_closure.2.1 _ _ _⟩

/-! ## C8: includes-file round trip -/

theorem includeEntryBody_false (n : String) : includeEntryBody false n = '-' :: ' ' :: n.data :=
  rfl

theorem includeEntryBody_true (n : String) :
    includeEntryBody true n = '#' :: ' ' :: '-' :: ' ' :: n.data := rfl

theorem includeEntryLine_eq (co : Bool) (n : String) :
    includeEntryLine co n = includeEntryBody co n ++ ['\n'] := by
  cases co <;> rfl

theorem goIdentName_no_newline {n : String} (h : goIdentName n = true) : '\n' ∉ n.data := by
  intro hmem
  unfold goIdentName at h
  cases hd : n.data with
  | nil => rw [hd] at hmem; exact absurd hmem (List.not_mem_nil _)
  | cons c cs =>
    rw [hd] at h hmem
    rw [Bool.and_eq_true] at h
    rcases List.mem_cons.mp hmem with hc | hcs
    · rw [← hc] at h
      exact absurd h.1 (by decide)
    · have := List.all_eq_true.mp h.2 '\n' hcs
      exact absurd this (by decide)

theorem yamlSafeName_no_newline {n : String} (h : yamlSafeName n = true) : '\n' ∉ n.data := by
  unfold yamlSafeName at h
  rw [Bool.and_eq_true] at h
  exact goIdentName_no_newline h.1

theorem no_newline_includeEntryBody (co : Bool) {n : String} (h : '\n' ∉ n.data) :
    '\n' ∉ includeEntryBody co n := by
  cases co
  · rw [includeEntryBody_false]
    intro hm
    simp only [List.mem_cons] at hm
    rcases hm with h1 | h1 | h1
    · exact absurd h1 (by decide)
    · exact absurd h1 (by decide)
    · exact h h1
  · rw [includeEntryBody_true]
    intro hm
    simp only [List.mem_cons] at hm
    rcases hm with h1 | h1 | h1 | h1 | h1
    · exact absurd h1 (by decide)
    · exact absurd h1 (by decide)
    · exact absurd h1 (by decide)
    · exact absurd h1 (by decide)
    · exact h h1

theorem splitLines_append (l rest : List Char) (h : '\n' ∉ l) :
    splitLines (l ++ '\n' :: rest) = l :: splitLines rest := by
  induction l with
  | nil =>
    show splitLines ('\n' :: rest) = [] :: splitLines rest
    simp [splitLines]
  | cons c cs ih =>
    have hc : ¬(c = '\n') := fun hcc => h (hcc ▸ List.mem_cons_self c cs)
    have h' : '\n' ∉ cs := fun hm => h (List.mem_cons_of_mem c hm)
    show splitLines (c :: (cs ++ '\n' :: rest)) = (c :: cs) :: splitLines rest
    simp only [splitLines]
    rw [if_neg hc, ih h']

theorem splitLines_entries (co : Bool) (names : List String) (rest : List Char)
    (h : ∀ n ∈ names, '\n' ∉ n.data) :
    splitLines ((names.map (includeEntryLine co)).flatten ++ rest) =
      names.map (includeEntryBody co) ++ splitLines rest := by
  induction names with
  | nil => simp
  | cons n ns ih =>
    have hn := h n (List.mem_cons_self n ns)
    have hns : ∀ x ∈ ns, '\n' ∉ x.data := fun x hx => h x (List.mem_cons_of_mem n hx)
    simp only [List.map_cons, List.flatten_cons]
    rw [includeEntryLine_eq]
    simp only [List.append_assoc]
    rw [show (['\n'] : List Char) ++ ((ns.map (includeEntryLine co)).flatten ++ rest) =
      '\n' :: ((ns.map (includeEntryLine co)).flatten ++ rest) from rfl]
    rw [splitLines_append _ _ (no_newline_includeEntryBody co hn)]
    rw [ih hns]
    rfl

theorem splitLines_WriteIncludesContent (models queries : List String) (co : Bool)
    (hm : ∀ n ∈ models, '\n' ∉ n.data) (hq : ∀ n ∈ queries, '\n' ∉ n.data) :
    splitLines (WriteIncludesContent models queries co) =
      "models:".data :: (models.map (includeEntryBody co) ++
        ([] :: "queries:".data :: (queries.map (includeEntryBody co) ++ [[]]))) := by
  unfold WriteIncludesContent
  rw [List.append_assoc, List.append_assoc]
  rw [show ("models:\n".data : List Char) ++
      ((models.map (includeEntryLine co)).flatten ++
        ("\nqueries:\n".data ++ (queries.map (includeEntryLine co)).flatten)) =
    "models:".data ++ ('\n' :: ((models.map (includeEntryLine co)).flatten ++
      ("\nqueries:\n".data ++ (queries.map (includeEntryLine co)).flatten))) from rfl]
  rw [splitLines_append _ _ (by decide)]
  rw [splitLines_entries co models _ hm]
  rw [show ("\nqueries:\n".data : List Char) ++ (queries.map (includeEntryLine co)).flatten =
    '\n' :: ("queries:".data ++ ('\n' :: (queries.map (includeEntryLine co)).flatten)) from rfl]
  rw [show splitLines ('\n' :: ("queries:".data ++
      ('\n' :: (queries.map (includeEntryLine co)).flatten))) =
    [] :: splitLines ("queries:".data ++
      ('\n' :: (queries.map (includeEntryLine co)).flatten)) from by simp [splitLines]]
  rw [splitLines_append _ _ (by decide)]
  rw [show (queries.map (includeEntryLine co)).flatten =
    (queries.map (includeEntryLine co)).flatten ++ [] from (List.append_nil _).symm]
  rw [splitLines_entries co queries _ hq]
  rfl

theorem parseIncludesLines_active_models (names : List String) (rest : List (List Char)) :
    parseIncludesLines .models (names.map (includeEntryBody false) ++ rest) =
      { parseIncludesLines .models rest with
        Models := names ++ (parseIncludesLines .models rest).Models } := by
  induction names with
  | nil => rfl
  | cons n ns ih =>
    show { parseIncludesLines .models (ns.map (includeEntryBody false) ++ rest) with
        Models := n ::
          (parseIncludesLines .models (ns.map (includeEntryBody false) ++ rest)).Models } = _
    rw [ih]
    rfl

theorem parseIncludesLines_active_queries (names : List String) (rest : List (List Char)) :
    parseIncludesLines .queries (names.map (includeEntryBody false) ++ rest) =
      { parseIncludesLines .queries rest with
        Queries := names ++ (parseIncludesLines .queries rest).Queries } := by
  induction names with
  | nil => rfl
  | cons n ns ih =>
    show { parseIncludesLines .queries (ns.map (includeEntryBody false) ++ rest) with
        Queries := n ::
          (parseIncludesLines .queries (ns.map (includeEntryBody false) ++ rest)).Queries } = _
    rw [ih]
    rfl

theorem parseIncludesLines_commented (sec : YamlSection) (names : List String)
    (rest : List (List Char)) :
    parseIncludesLines sec (names.map (includeEntryBody true) ++ rest) =
      parseIncludesLines sec rest := by
  induction names with
  | nil => rfl
  | cons n ns ih =>
    show parseIncludesLines sec (ns.map (includeEntryBody true) ++ rest) = _
    exact ih

/-- C8: writing the includes file and reading it straight back yields the
full written universe when entries are written active, and the empty
selection when they are written commented out — never a partial set.  The
names are required to be Go identifiers that YAML does not reinterpret
(`yamlSafeName`), which covers every struct and method name the generator
writes. -/
theorem C8_includes_roundtrip (models queries : List String)
    (hm : ∀ n ∈ models, yamlSafeName n = true)
    (hq : ∀ n ∈ queries, yamlSafeName n = true) :
    LoadIncludesContent (WriteIncludesContent models queries false) =
      { Models := models, Queries := queries } ∧
    LoadIncludesContent (WriteIncludesContent models queries true) =
      { Models := [], Queries := [] } := by
  have hm' : ∀ n ∈ models, '\n' ∉ n.data := fun n hn => yamlSafeName_no_newline (hm n hn)
  have hq' : ∀ n ∈ queries, '\n' ∉ n.data := fun n hn => yamlSafeName_no_newline (hq n hn)
  constructor
  · unfold LoadIncludesContent
    rw [splitLines_WriteIncludesContent models queries false hm' hq']
    show parseIncludesLines .models (models.map (includeEntryBody false) ++
      ([] :: "queries:".data :: (queries.map (includeEntryBody false) ++ [[]]))) = _
    rw [parseIncludesLines_active_models]
    show { parseIncludesLines .queries (queries.map (includeEntryBody false) ++ [[]]) with
      Models := models ++
        (parseIncludesLines .queries
          (queries.map (includeEntryBody false) ++ [[]])).Models } = _
    rw [parseIncludesLines_active_queries]
    show ({ Models := models ++ [], Queries := queries ++ [] } : IncludesFile) = _
    simp
  · unfold LoadIncludesContent
    rw [splitLines_WriteIncludesContent models queries true hm' hq']
    show parseIncludesLines .models (models.map (includeEntryBody true) ++
      ([] :: "queries:".data :: (queries.map (includeEntryBody true) ++ [[]]))) = _
    rw [parseIncludesLines_commented]
    show parseIncludesLines .queries (queries.map (includeEntryBody true) ++ [[]]) = _
    rw [parseIncludesLines_commented]
    rfl

/-- Witness for C8 at a concrete universe of two models and two queries. -/
theorem C8_includes_roundtrip_witness :
    LoadIncludesContent (WriteIncludesContent ["Book", "Author"] ["GetBook", "ListBooks"]
        false) =
      { Models := ["Book", "Author"], Queries := ["GetBook", "ListBooks"] } ∧
    LoadIncludesContent (WriteIncludesContent ["Book", "Author"] ["GetBook", "ListBooks"]
        true) =
      { Models := [], Queries := [] } :=
  C8_includes_roundtrip ["Book", "Author"] ["GetBook", "ListBooks"]
    (by decide) (by decide)

end Sqlc2Proto
